import Mathlib

/-!
Verification of the 2-D pursuit/intercept simulation (`src/main.rs`).

The program is floating-point Rust; it is embedded here over the exact reals:
every arithmetic expression, comparison and branch of the source is
translated literally (`f64::sqrt` becomes `Real.sqrt`, `to_radians` becomes
multiplication by `π / 180`, `acos` becomes `Real.arccos`, `to_degrees`
becomes multiplication by `180 / π`).  The simulation loop of `main` is
embedded as a step function over an explicit state, with the sequential
random draws of the single rng stream supplied as an explicit list.
-/

noncomputable section

open Real

/-- The kinematic entity of the source (`struct Target`); the interceptor is
a type alias of the same struct (`pub type Interceptor = Target`). -/
structure Target where
  x : ℝ
  y : ℝ
  vx : ℝ
  vy : ℝ

/-- `Target::update`: position += velocity, one tick of integration. -/
def Target.update (t : Target) : Target :=
  { t with x := t.x + t.vx, y := t.y + t.vy }

/-- `Target::distance_to`: Euclidean distance between the two positions. -/
def Target.distance_to (t other : Target) : ℝ :=
  Real.sqrt ((t.x - other.x) * (t.x - other.x) + (t.y - other.y) * (t.y - other.y))

/-- Magnitude of an entity's velocity (the expression
`(vx * vx + vy * vy).sqrt()` the source uses for the interceptor speed). -/
def Target.speed (t : Target) : ℝ :=
  Real.sqrt (t.vx * t.vx + t.vy * t.vy)

/-- `calculate_angle_between_vectors`: angle between two vectors in degrees,
`acos(dot / (|v1| |v2|)) . to_degrees()`, and `0` when either magnitude is
not positive. -/
def calculate_angle_between_vectors (vx1 vy1 vx2 vy2 : ℝ) : ℝ :=
  let dot := vx1 * vx2 + vy1 * vy2
  let magnitude1 := Real.sqrt (vx1 * vx1 + vy1 * vy1)
  let magnitude2 := Real.sqrt (vx2 * vx2 + vy2 * vy2)
  if 0 < magnitude1 ∧ 0 < magnitude2 then
    Real.arccos (dot / (magnitude1 * magnitude2)) * (180 / Real.pi)
  else 0

/-- Leading coefficient `a = v·v - s²` of the closing-time quadratic in
`calculate_steering_direction`, with `s` the interceptor speed
`(from.vx * from.vx + from.vy * from.vy).sqrt()`. -/
def coefA (frm tgt : Target) : ℝ :=
  tgt.vx * tgt.vx + tgt.vy * tgt.vy -
    Real.sqrt (frm.vx * frm.vx + frm.vy * frm.vy) *
      Real.sqrt (frm.vx * frm.vx + frm.vy * frm.vy)

/-- Coefficient `b = 2 (r·v)` of the closing-time quadratic. -/
def coefB (frm tgt : Target) : ℝ :=
  2 * ((tgt.x - frm.x) * tgt.vx + (tgt.y - frm.y) * tgt.vy)

/-- Coefficient `c = r·r` of the closing-time quadratic. -/
def coefC (frm tgt : Target) : ℝ :=
  (tgt.x - frm.x) * (tgt.x - frm.x) + (tgt.y - frm.y) * (tgt.y - frm.y)

/-- The discriminant `b*b - 4*a*c` of the closing-time quadratic. -/
def quadDisc (frm tgt : Target) : ℝ :=
  coefB frm tgt * coefB frm tgt - 4 * coefA frm tgt * coefC frm tgt

/-- The root `t1 = (-b + disc.sqrt()) / (2a)` computed by the source. -/
def root1 (frm tgt : Target) : ℝ :=
  (-coefB frm tgt + Real.sqrt (quadDisc frm tgt)) / (2 * coefA frm tgt)

/-- The root `t2 = (-b - disc.sqrt()) / (2a)` computed by the source. -/
def root2 (frm tgt : Target) : ℝ :=
  (-coefB frm tgt - Real.sqrt (quadDisc frm tgt)) / (2 * coefA frm tgt)

/-- The intercept-time selection of `calculate_steering_direction`
(`t_opt`): the degenerate linear case when `a.abs() < 1e-9`, otherwise the
smallest strictly positive quadratic root when the discriminant is
non-negative (the source collects the positive roots, sorts them and takes
the first, i.e. the minimum), and `none` when no positive root exists. -/
def intercept_time (frm tgt : Target) : Option ℝ :=
  if |coefA frm tgt| < 1e-9 then
    if 1e-9 < |coefB frm tgt| then
      if 0 < -coefC frm tgt / coefB frm tgt then some (-coefC frm tgt / coefB frm tgt)
      else none
    else none
  else
    if 0 ≤ quadDisc frm tgt then
      if 0 < root1 frm tgt then
        if 0 < root2 frm tgt then some (min (root1 frm tgt) (root2 frm tgt))
        else some (root1 frm tgt)
      else
        if 0 < root2 frm tgt then some (root2 frm tgt) else none
    else none

/-- The aim point of `calculate_steering_direction`: the predicted intercept
`to + v * t` when a time was found, otherwise the target's current
position. -/
def aim_point (frm tgt : Target) : ℝ × ℝ :=
  match intercept_time frm tgt with
  | some t => (tgt.x + tgt.vx * t, tgt.y + tgt.vy * t)
  | none => (tgt.x, tgt.y)

/-- The distance `dist` from the interceptor to the aim point. -/
def aim_distance (frm tgt : Target) : ℝ :=
  Real.sqrt (((aim_point frm tgt).1 - frm.x) * ((aim_point frm tgt).1 - frm.x) +
    ((aim_point frm tgt).2 - frm.y) * ((aim_point frm tgt).2 - frm.y))

/-- The desired heading before approach-angle enforcement: the normalized
direction to the aim point, or the zero vector when the distance to the aim
point is not above `1e-9` (the source's early `return (0.0, 0.0)`). -/
def desired_heading (frm tgt : Target) : ℝ × ℝ :=
  if 1e-9 < aim_distance frm tgt then
    (((aim_point frm tgt).1 - frm.x) / aim_distance frm tgt,
     ((aim_point frm tgt).2 - frm.y) / aim_distance frm tgt)
  else (0, 0)

/-- The approach-angle enforcement block of `calculate_steering_direction`:
when the angle between the heading `d` and the target velocity is `≤ 5`
degrees, rotate the heading by `5.5` degrees with the rotation sign taken
from the 2-D cross product `dx * vy - dy * vx`, and re-normalize when the
rotated magnitude exceeds `1e-9`. -/
def enforce_approach_angle (d : ℝ × ℝ) (vx vy : ℝ) : ℝ × ℝ :=
  let angle := calculate_angle_between_vectors d.1 d.2 vx vy
  if angle ≤ 5 then
    let cross := d.1 * vy - d.2 * vx
    let sign : ℝ := if 0 ≤ cross then 1 else -1
    let rot := sign * (5.5 * (Real.pi / 180))
    let ndx := d.1 * Real.cos rot - d.2 * Real.sin rot
    let ndy := d.1 * Real.sin rot + d.2 * Real.cos rot
    let nm := Real.sqrt (ndx * ndx + ndy * ndy)
    if 1e-9 < nm then (ndx / nm, ndy / nm) else d
  else d

/-- `calculate_steering_direction`: lead-pursuit heading with
approach-angle enforcement; returns the zero vector when the interceptor is
already at the aim point (distance not above `1e-9`). -/
def calculate_steering_direction (frm tgt : Target) : ℝ × ℝ :=
  if 1e-9 < aim_distance frm tgt then
    enforce_approach_angle (desired_heading frm tgt) tgt.vx tgt.vy
  else (0, 0)

/-- The configuration constants of `main` that parametrize the tick loop. -/
structure Params where
  collision_threshold : ℝ
  target_initial_height : ℝ
  correction_weight : ℝ
  p_gain : ℝ
  interceptor_speed : ℝ

/-- The evasion-controller block of the tick loop: blend the random draw
`ρ` with the proportional height correction and rotate the target velocity
by the blended angle (degrees converted to radians). -/
def evade (p : Params) (ρ : ℝ) (t : Target) : Target :=
  let height_error := t.y - p.target_initial_height
  let correction_angle_deg := -height_error * p.p_gain
  let blended_angle_deg := ρ * (1 - p.correction_weight) +
    correction_angle_deg * p.correction_weight
  let rad := blended_angle_deg * (Real.pi / 180)
  { t with
    vx := t.vx * Real.cos rad - t.vy * Real.sin rad,
    vy := t.vx * Real.sin rad + t.vy * Real.cos rad }

/-- The mutable state of `main`'s tick loop. -/
structure SimState where
  target : Target
  interceptor : Target
  target_positions : List (ℝ × ℝ)
  interceptor_positions : List (ℝ × ℝ)
  collision_point : Option (ℝ × ℝ)
  collision_angle : Option ℝ

/-- One iteration of the tick loop.  A state whose collision fields are
already set is final (the source `break`s out of the loop), so the step is
the identity there.  Otherwise: collision test against the threshold, then
evasion update of the target, then steering (with the redundant
re-normalization `if dir_magnitude > 0.0` of `main`), then integration of
both entities and recording of both positions. -/
def simStep (p : Params) (ρ : ℝ) (st : SimState) : SimState :=
  if st.collision_point.isSome then st
  else if st.interceptor.distance_to st.target < p.collision_threshold then
    { st with
      collision_point := some (st.target.x, st.target.y),
      collision_angle := some (calculate_angle_between_vectors
        st.target.vx st.target.vy st.interceptor.vx st.interceptor.vy) }
  else
    let tgt := evade p ρ st.target
    let dir0 := calculate_steering_direction st.interceptor tgt
    let m := Real.sqrt (dir0.1 * dir0.1 + dir0.2 * dir0.2)
    let dir := if 0 < m then (dir0.1 / m, dir0.2 / m) else dir0
    let itc : Target := { st.interceptor with
      vx := dir.1 * p.interceptor_speed, vy := dir.2 * p.interceptor_speed }
    { target := tgt.update,
      interceptor := itc.update,
      target_positions := st.target_positions ++ [(tgt.update.x, tgt.update.y)],
      interceptor_positions := st.interceptor_positions ++ [(itc.update.x, itc.update.y)],
      collision_point := st.collision_point,
      collision_angle := st.collision_angle }

/-- The tick loop over an explicit list of sequential random draws. -/
def simRun (p : Params) (draws : List ℝ) (st : SimState) : SimState :=
  match draws with
  | [] => st
  | ρ :: rest => simRun p rest (simStep p ρ st)

/-- The initial state of `main`: target at `(0, 30)` with velocity
`(2, 0)`, interceptor at its start position with velocity `(0, 0)`, both
trajectory records seeded with the tick-0 positions, no collision. -/
def simInit (ix iy : ℝ) : SimState :=
  { target := ⟨0, 30, 2, 0⟩,
    interceptor := ⟨ix, iy, 0, 0⟩,
    target_positions := [(0, 30)],
    interceptor_positions := [(ix, iy)],
    collision_point := none,
    collision_angle := none }

/-- The whole run of `main` as a function of the draw stream: with the
`--randomize-interceptor` flag the first two draws give the interceptor
start position (the draws are sequential from the single rng stream),
otherwise the interceptor starts at the origin. -/
def mainRun (randomize : Bool) (p : Params) (draws : List ℝ) : SimState :=
  match randomize, draws with
  | true, ix :: iy :: rest => simRun p rest (simInit ix iy)
  | true, ds => simRun p ds (simInit 0 0)
  | false, ds => simRun p ds (simInit 0 0)

/-- Modelled from the spec: the optional random seed is absent from the
source (`main` uses the unseeded `rand::thread_rng()`); the spec requires
"an optional random-seed for reproducibility" and that "randomness draws
are sequential and must come from a single stream per run".  A seeded
generator is therefore modelled as an arbitrary function producing the
run's whole sequential draw stream from the seed. -/
def seededStream (g : ℕ → List ℝ) (seed : ℕ) : List ℝ := g seed

/-! ### General helper lemmas -/

/-- A 2-D rotation leaves the squared magnitude of a vector unchanged. -/
lemma rotate_norm_sq (a b θ : ℝ) :
    (a * Real.cos θ - b * Real.sin θ) * (a * Real.cos θ - b * Real.sin θ) +
      (a * Real.sin θ + b * Real.cos θ) * (a * Real.sin θ + b * Real.cos θ) =
    a * a + b * b := by
  linear_combination (a * a + b * b) * Real.sin_sq_add_cos_sq θ

/-- The approach-angle enforcement step maps a unit vector to a unit
vector: the rotation preserves the magnitude exactly, so the re-normalizing
division is by `1`. -/
lemma enforce_approach_angle_unit {d : ℝ × ℝ} (vx vy : ℝ)
    (hd : d.1 * d.1 + d.2 * d.2 = 1) :
    (enforce_approach_angle d vx vy).1 * (enforce_approach_angle d vx vy).1 +
      (enforce_approach_angle d vx vy).2 * (enforce_approach_angle d vx vy).2 = 1 := by
  unfold enforce_approach_angle
  by_cases hang : calculate_angle_between_vectors d.1 d.2 vx vy ≤ 5
  · simp only [hang, if_true]
    have hrot : ∀ rot : ℝ,
        (d.1 * Real.cos rot - d.2 * Real.sin rot) * (d.1 * Real.cos rot - d.2 * Real.sin rot) +
          (d.1 * Real.sin rot + d.2 * Real.cos rot) * (d.1 * Real.sin rot + d.2 * Real.cos rot)
          = 1 := fun rot => by rw [rotate_norm_sq, hd]
    set rot := (if 0 ≤ d.1 * vy - d.2 * vx then (1 : ℝ) else -1) * (5.5 * (Real.pi / 180))
      with hrotdef
    have hnm : Real.sqrt
        ((d.1 * Real.cos rot - d.2 * Real.sin rot) * (d.1 * Real.cos rot - d.2 * Real.sin rot) +
          (d.1 * Real.sin rot + d.2 * Real.cos rot) * (d.1 * Real.sin rot + d.2 * Real.cos rot))
        = 1 := by rw [hrot rot, Real.sqrt_one]
    simp only [hnm]
    have h19 : (1e-9 : ℝ) < 1 := by norm_num
    simp only [h19, if_true, div_one]
    exact hrot rot
  · simp only [hang, if_false]
    exact hd

/-! ### Simulation-loop helper lemmas -/

lemma simRun_nil (p : Params) (st : SimState) : simRun p [] st = st := rfl

lemma simRun_cons (p : Params) (ρ : ℝ) (rest : List ℝ) (st : SimState) :
    simRun p (ρ :: rest) st = simRun p rest (simStep p ρ st) := rfl

/-- A state with the collision already recorded is final: the step is the
identity (the source `break`s out of the loop). -/
lemma simStep_stuck (p : Params) (ρ : ℝ) (st : SimState)
    (h : st.collision_point.isSome) : simStep p ρ st = st := by
  unfold simStep
  rw [if_pos h]

/-- The whole remaining run is the identity once the collision is
recorded. -/
lemma simRun_stuck (p : Params) (ds : List ℝ) (st : SimState)
    (h : st.collision_point.isSome) : simRun p ds st = st := by
  induction ds with
  | nil => rfl
  | cons ρ rest ih => rw [simRun_cons, simStep_stuck p ρ st h, ih]

/-- The colliding step: when the distance test fires, the step only records
the collision point (the target position) and the angle between the two
velocity vectors, leaving everything else unchanged. -/
lemma simStep_fire (p : Params) (ρ : ℝ) (st : SimState)
    (h : st.collision_point = none)
    (hd : st.interceptor.distance_to st.target < p.collision_threshold) :
    simStep p ρ st = { st with
      collision_point := some (st.target.x, st.target.y),
      collision_angle := some (calculate_angle_between_vectors
        st.target.vx st.target.vy st.interceptor.vx st.interceptor.vy) } := by
  unfold simStep
  rw [h]
  simp only [Option.isSome_none, Bool.false_eq_true, if_false, if_pos hd]

/-- The non-colliding step: collision fields unchanged, and exactly one
sample appended to each trajectory record. -/
lemma simStep_nofire (p : Params) (ρ : ℝ) (st : SimState)
    (h : st.collision_point = none)
    (hd : ¬ st.interceptor.distance_to st.target < p.collision_threshold) :
    (simStep p ρ st).collision_point = none ∧
      (simStep p ρ st).collision_angle = st.collision_angle ∧
      (simStep p ρ st).target_positions.length = st.target_positions.length + 1 ∧
      (simStep p ρ st).interceptor_positions.length =
        st.interceptor_positions.length + 1 := by
  unfold simStep
  rw [h]
  simp only [Option.isSome_none, Bool.false_eq_true, if_false, if_neg hd]
  refine ⟨?_, ?_, ?_, ?_⟩ <;> simp

/-- Core record/collision bookkeeping of the tick loop, by induction over
the draw stream: either no collision happened and each record gained one
sample per draw, or the collision fired at some tick `k`, the run is frozen
from tick `k + 1` on, and each record gained exactly `k` samples. -/
lemma simRun_records (p : Params) (ds : List ℝ) (st : SimState)
    (h : st.collision_point = none) :
    ((simRun p ds st).collision_point = none ∧
       (simRun p ds st).collision_angle = st.collision_angle ∧
       (simRun p ds st).target_positions.length =
         st.target_positions.length + ds.length ∧
       (simRun p ds st).interceptor_positions.length =
         st.interceptor_positions.length + ds.length) ∨
    (∃ k, k < ds.length ∧
       (simRun p (ds.take k) st).collision_point = none ∧
       simRun p (ds.take (k + 1)) st = simRun p ds st ∧
       (simRun p ds st).collision_point ≠ none ∧
       (simRun p ds st).target_positions.length = st.target_positions.length + k ∧
       (simRun p ds st).interceptor_positions.length =
         st.interceptor_positions.length + k) := by
  induction ds generalizing st with
  | nil =>
    exact Or.inl ⟨h, rfl, by simp [simRun_nil], by simp [simRun_nil]⟩
  | cons ρ rest ih =>
    by_cases hd : st.interceptor.distance_to st.target < p.collision_threshold
    · refine Or.inr ⟨0, by simp, ?_, ?_, ?_, ?_, ?_⟩
      · simpa [simRun_nil] using h
      · simp only [List.take_zero, List.take_succ_cons, List.take_zero, simRun_cons,
          simRun_nil]
        rw [simRun_stuck p rest (simStep p ρ st) (by rw [simStep_fire p ρ st h hd]; rfl)]
      · rw [simRun_cons, simRun_stuck p rest (simStep p ρ st)
          (by rw [simStep_fire p ρ st h hd]; rfl), simStep_fire p ρ st h hd]
        simp
      · rw [simRun_cons, simRun_stuck p rest (simStep p ρ st)
          (by rw [simStep_fire p ρ st h hd]; rfl), simStep_fire p ρ st h hd]
        simp
      · rw [simRun_cons, simRun_stuck p rest (simStep p ρ st)
          (by rw [simStep_fire p ρ st h hd]; rfl), simStep_fire p ρ st h hd]
        simp
    · obtain ⟨h0, hang, hlt, hli⟩ := simStep_nofire p ρ st h hd
      rcases ih (simStep p ρ st) h0 with
        ⟨hc, ha, ht, hi⟩ | ⟨k, hk, hnone, hfreeze, hsome, ht, hi⟩
      · refine Or.inl ⟨by rwa [simRun_cons], ?_, ?_, ?_⟩
        · rw [simRun_cons, ha, hang]
        · rw [simRun_cons, ht, hlt, List.length_cons]; omega
        · rw [simRun_cons, hi, hli, List.length_cons]; omega
      · refine Or.inr ⟨k + 1, by simpa using Nat.succ_lt_succ hk, ?_, ?_, ?_, ?_, ?_⟩
        · rwa [List.take_succ_cons, simRun_cons]
        · rw [List.take_succ_cons, simRun_cons, simRun_cons, hfreeze]
        · rwa [simRun_cons]
        · rw [simRun_cons, ht, hlt]; omega
        · rw [simRun_cons, hi, hli]; omega

/-! ### Claim C4: a run is a deterministic function of seed and parameters -/

/-- Claim C4: the run is a deterministic function of the configuration and
of the sequential random stream: two executions with the same seed (hence
the same draw stream from the seeded generator) and identical parameters
produce identical target and interceptor trajectories and the identical
collision outcome. -/
theorem C4_run_deterministic (g : ℕ → List ℝ) (seed : ℕ) (r₁ r₂ : Bool)
    (p₁ p₂ : Params) (hr : r₁ = r₂) (hp : p₁ = p₂) :
    (mainRun r₁ p₁ (seededStream g seed)).target_positions =
        (mainRun r₂ p₂ (seededStream g seed)).target_positions ∧
      (mainRun r₁ p₁ (seededStream g seed)).interceptor_positions =
        (mainRun r₂ p₂ (seededStream g seed)).interceptor_positions ∧
      (mainRun r₁ p₁ (seededStream g seed)).collision_point =
        (mainRun r₂ p₂ (seededStream g seed)).collision_point ∧
      (mainRun r₁ p₁ (seededStream g seed)).collision_angle =
        (mainRun r₂ p₂ (seededStream g seed)).collision_angle := by
  subst hr; subst hp
  exact ⟨rfl, rfl, rfl, rfl⟩

/-- Witness for C4 at a concrete seeded generator, seed and
configuration. -/
theorem C4_run_deterministic_witness :
    ((false : Bool) = false) ∧
      (mainRun false ⟨1, 30, 0, 0.2, 2.5⟩ (seededStream (fun _ => [1, 2]) 7)).collision_point =
        (mainRun false ⟨1, 30, 0, 0.2, 2.5⟩ (seededStream (fun _ => [1, 2]) 7)).collision_point := by
  exact ⟨rfl, (C4_run_deterministic (fun _ => [1, 2]) 7 false false _ _ rfl rfl).2.2.1⟩

/-! ### Claim C7: a negative collision threshold exhausts the tick budget -/

/-- `distance_to` is always non-negative. -/
lemma distance_to_nonneg (a b : Target) : 0 ≤ a.distance_to b :=
  Real.sqrt_nonneg _

/-- Claim C7: with a negative collision threshold no tick's collision test
`distance < threshold` can succeed, so the run executes the full tick
budget: the collision result stays absent (reported as "no collision") and
every tick appends its samples. -/
theorem C7_negative_threshold_no_collision (p : Params) (ix iy : ℝ)
    (draws : List ℝ) (hneg : p.collision_threshold < 0) :
    (simRun p draws (simInit ix iy)).collision_point = none ∧
      (simRun p draws (simInit ix iy)).collision_angle = none ∧
      (simRun p draws (simInit ix iy)).target_positions.length = draws.length + 1 ∧
      (simRun p draws (simInit ix iy)).interceptor_positions.length =
        draws.length + 1 := by
  have key : ∀ (ds : List ℝ) (st : SimState), st.collision_point = none →
      st.collision_angle = none →
      (simRun p ds st).collision_point = none ∧
        (simRun p ds st).collision_angle = none ∧
        (simRun p ds st).target_positions.length =
          st.target_positions.length + ds.length ∧
        (simRun p ds st).interceptor_positions.length =
          st.interceptor_positions.length + ds.length := by
    intro ds
    induction ds with
    | nil => intro st h1 h2; exact ⟨h1, h2, by simp [simRun_nil], by simp [simRun_nil]⟩
    | cons ρ rest ih =>
      intro st h1 h2
      have hd : ¬ st.interceptor.distance_to st.target < p.collision_threshold :=
        not_lt.mpr (le_of_lt (lt_of_lt_of_le hneg (distance_to_nonneg _ _)))
      obtain ⟨h0, hang, hlt, hli⟩ := simStep_nofire p ρ st h1 hd
      obtain ⟨g1, g2, g3, g4⟩ := ih (simStep p ρ st) h0 (by rw [hang, h2])
      refine ⟨by rwa [simRun_cons], by rwa [simRun_cons], ?_, ?_⟩
      · rw [simRun_cons, g3, hlt, List.length_cons]; omega
      · rw [simRun_cons, g4, hli, List.length_cons]; omega
  obtain ⟨h1, h2, h3, h4⟩ := key draws (simInit ix iy) rfl rfl
  refine ⟨h1, h2, ?_, ?_⟩
  · rw [h3]; simp [simInit]; omega
  · rw [h4]; simp [simInit]; omega

/-- Witness for C7: threshold `-1`, empty draw stream. -/
theorem C7_negative_threshold_no_collision_witness :
    ((-1 : ℝ) < 0) ∧
      (simRun ⟨-1, 30, 0, 0.2, 2.5⟩ [] (simInit 0 0)).collision_point = none ∧
      (simRun ⟨-1, 30, 0, 0.2, 2.5⟩ [] (simInit 0 0)).target_positions.length = 1 := by
  have h := C7_negative_threshold_no_collision ⟨-1, 30, 0, 0.2, 2.5⟩ 0 0 []
    (by norm_num)
  exact ⟨by norm_num, h.1, by simpa using h.2.2.1⟩

/-! ### Claim C10: trajectory records stay in lockstep -/

/-- Claim C10: both trajectory records are seeded with the tick-0 position
and each executed non-colliding tick appends exactly one sample to each, so
the records always have equal length; a full run without collision holds
`draws.length + 1` samples, and when a collision is detected it is detected
at tick `k` (no collision in the first `k` draws, the run is frozen from
draw `k + 1` on) with each record holding exactly `k + 1` samples — the
collision tick is the record length minus one. -/
theorem C10_records_lockstep (p : Params) (ix iy : ℝ) (draws : List ℝ) :
    (simRun p draws (simInit ix iy)).target_positions.length =
        (simRun p draws (simInit ix iy)).interceptor_positions.length ∧
      ((simRun p draws (simInit ix iy)).collision_point = none →
        (simRun p draws (simInit ix iy)).target_positions.length =
          draws.length + 1) ∧
      ((simRun p draws (simInit ix iy)).collision_point ≠ none →
        ∃ k, k < draws.length ∧
          (simRun p (draws.take k) (simInit ix iy)).collision_point = none ∧
          simRun p (draws.take (k + 1)) (simInit ix iy) =
            simRun p draws (simInit ix iy) ∧
          (simRun p draws (simInit ix iy)).target_positions.length = k + 1) := by
  rcases simRun_records p draws (simInit ix iy) rfl with
    ⟨hc, _, ht, hi⟩ | ⟨k, hk, hnone, hfreeze, hsome, ht, hi⟩
  · refine ⟨?_, fun _ => ?_, fun hne => absurd hc hne⟩
    · rw [ht, hi]; simp [simInit]
    · rw [ht]; simp [simInit]; omega
  · refine ⟨?_, fun hc => absurd hc hsome, fun _ => ⟨k, hk, hnone, hfreeze, ?_⟩⟩
    · rw [ht, hi]; simp [simInit]
    · rw [ht]; simp [simInit]; omega

/-- Witness for C10's conditional parts at a concrete run: with no draws
the run does not collide and each record holds exactly one sample. -/
theorem C10_records_lockstep_witness :
    (simRun ⟨1, 30, 0, 0.2, 2.5⟩ [] (simInit 0 0)).target_positions.length =
        (simRun ⟨1, 30, 0, 0.2, 2.5⟩ [] (simInit 0 0)).interceptor_positions.length ∧
      (simRun ⟨1, 30, 0, 0.2, 2.5⟩ [] (simInit 0 0)).target_positions.length = 1 := by
  have h := C10_records_lockstep ⟨1, 30, 0, 0.2, 2.5⟩ 0 0 []
  exact ⟨h.1, by simpa using h.2.1 rfl⟩

/-! ### Quadratic-root helper lemmas -/

/-- When no intercept time is found the aim point is the target's current
position. -/
lemma aim_point_of_none (frm tgt : Target) (h : intercept_time frm tgt = none) :
    aim_point frm tgt = (tgt.x, tgt.y) := by
  unfold aim_point
  rw [h]

/-- The code's discriminant agrees with Mathlib's `discrim`. -/
lemma quadDisc_eq_discrim (frm tgt : Target) :
    discrim (coefA frm tgt) (coefB frm tgt) (coefC frm tgt) = quadDisc frm tgt := by
  unfold discrim quadDisc
  ring

/-! ### Claim C3: smallest strictly positive quadratic root -/

/-- Claim C3: with a non-degenerate leading coefficient
(`|v·v - s²| ≥ 1e-9`), any intercept time the code selects is a strictly
positive root of the closing-time quadratic and is the smallest strictly
positive real root (non-positive roots are rejected); and when the code
selects none, no strictly positive real root exists and the aim point is
exactly the target's current position. -/
theorem C3_smallest_positive_root (frm tgt : Target)
    (h : 1e-9 ≤ |coefA frm tgt|) :
    (∀ t, intercept_time frm tgt = some t →
      0 < t ∧
        coefA frm tgt * (t * t) + coefB frm tgt * t + coefC frm tgt = 0 ∧
        ∀ u, 0 < u →
          coefA frm tgt * (u * u) + coefB frm tgt * u + coefC frm tgt = 0 → t ≤ u) ∧
    (intercept_time frm tgt = none →
      (∀ u, 0 < u →
        coefA frm tgt * (u * u) + coefB frm tgt * u + coefC frm tgt ≠ 0) ∧
        aim_point frm tgt = (tgt.x, tgt.y)) := by
  have ha : coefA frm tgt ≠ 0 := by
    intro h0
    rw [h0] at h
    norm_num at h
  have hnotlt : ¬ |coefA frm tgt| < 1e-9 := not_lt.mpr h
  by_cases hdisc : 0 ≤ quadDisc frm tgt
  · have hsq : discrim (coefA frm tgt) (coefB frm tgt) (coefC frm tgt) =
        Real.sqrt (quadDisc frm tgt) * Real.sqrt (quadDisc frm tgt) := by
      rw [Real.mul_self_sqrt hdisc, quadDisc_eq_discrim]
    have hroots := fun x =>
      quadratic_eq_zero_iff ha hsq x
    have hr1 : coefA frm tgt * (root1 frm tgt * root1 frm tgt) +
        coefB frm tgt * root1 frm tgt + coefC frm tgt = 0 :=
      (hroots (root1 frm tgt)).mpr (Or.inl rfl)
    have hr2 : coefA frm tgt * (root2 frm tgt * root2 frm tgt) +
        coefB frm tgt * root2 frm tgt + coefC frm tgt = 0 :=
      (hroots (root2 frm tgt)).mpr (Or.inr rfl)
    by_cases h1 : 0 < root1 frm tgt
    · by_cases h2 : 0 < root2 frm tgt
      · have heq : intercept_time frm tgt = some (min (root1 frm tgt) (root2 frm tgt)) := by
          unfold intercept_time
          rw [if_neg hnotlt, if_pos hdisc, if_pos h1, if_pos h2]
        refine ⟨?_, ?_⟩
        · intro t ht
          rw [heq, Option.some_inj] at ht
          subst ht
          refine ⟨lt_min h1 h2, ?_, ?_⟩
          · rcases min_choice (root1 frm tgt) (root2 frm tgt) with hm | hm <;> rw [hm]
            · exact hr1
            · exact hr2
          · intro u _ hu
            rcases (hroots u).mp hu with rfl | rfl
            · exact min_le_left _ _
            · exact min_le_right _ _
        · intro hnone
          rw [heq] at hnone
          exact absurd hnone (by simp)
      · have heq : intercept_time frm tgt = some (root1 frm tgt) := by
          unfold intercept_time
          rw [if_neg hnotlt, if_pos hdisc, if_pos h1, if_neg h2]
        refine ⟨?_, ?_⟩
        · intro t ht
          rw [heq, Option.some_inj] at ht
          subst ht
          refine ⟨h1, hr1, ?_⟩
          · intro u hu0 hu
            rcases (hroots u).mp hu with rfl | rfl
            · exact le_refl _
            · exact absurd hu0 h2
        · intro hnone
          rw [heq] at hnone
          exact absurd hnone (by simp)
    · by_cases h2 : 0 < root2 frm tgt
      · have heq : intercept_time frm tgt = some (root2 frm tgt) := by
          unfold intercept_time
          rw [if_neg hnotlt, if_pos hdisc, if_neg h1, if_pos h2]
        refine ⟨?_, ?_⟩
        · intro t ht
          rw [heq, Option.some_inj] at ht
          subst ht
          refine ⟨h2, hr2, ?_⟩
          · intro u hu0 hu
            rcases (hroots u).mp hu with rfl | rfl
            · exact absurd hu0 h1
            · exact le_refl _
        · intro hnone
          rw [heq] at hnone
          exact absurd hnone (by simp)
      · have heq : intercept_time frm tgt = none := by
          unfold intercept_time
          rw [if_neg hnotlt, if_pos hdisc, if_neg h1, if_neg h2]
        refine ⟨?_, ?_⟩
        · intro t ht
          rw [heq] at ht
          exact absurd ht (by simp)
        · intro _
          refine ⟨?_, aim_point_of_none frm tgt heq⟩
          intro u hu0 hu
          rcases (hroots u).mp hu with rfl | rfl
          · exact h1 hu0
          · exact h2 hu0
  · have heq : intercept_time frm tgt = none := by
      unfold intercept_time
      rw [if_neg hnotlt, if_neg hdisc]
    have hlt : quadDisc frm tgt < 0 := not_le.mp hdisc
    refine ⟨?_, ?_⟩
    · intro t ht
      rw [heq] at ht
      exact absurd ht (by simp)
    · intro _
      refine ⟨?_, aim_point_of_none frm tgt heq⟩
      intro u _ hu
      refine quadratic_ne_zero_of_discrim_ne_sq (fun s => ?_) u hu
      rw [quadDisc_eq_discrim]
      exact ne_of_lt (lt_of_lt_of_le hlt (sq_nonneg s))

/-- Evaluation helpers at the concrete input: interceptor at rest at the
origin, target at `(100, 6)` with velocity `(1, 0)`. -/
lemma coefA_ex1 : coefA ⟨0, 0, 0, 0⟩ ⟨100, 6, 1, 0⟩ = 1 := by
  unfold coefA
  norm_num [Real.sqrt_zero]

lemma coefB_ex1 : coefB ⟨0, 0, 0, 0⟩ ⟨100, 6, 1, 0⟩ = 200 := by
  unfold coefB
  norm_num

lemma coefC_ex1 : coefC ⟨0, 0, 0, 0⟩ ⟨100, 6, 1, 0⟩ = 10036 := by
  unfold coefC
  norm_num

/-- At the concrete input the discriminant is negative, so no intercept
time is found. -/
lemma intercept_time_ex1 : intercept_time ⟨0, 0, 0, 0⟩ ⟨100, 6, 1, 0⟩ = none := by
  unfold intercept_time
  rw [if_neg, if_neg]
  · rw [quadDisc, coefA_ex1, coefB_ex1, coefC_ex1]
    norm_num
  · rw [coefA_ex1]
    norm_num

lemma aim_point_ex1 : aim_point ⟨0, 0, 0, 0⟩ ⟨100, 6, 1, 0⟩ = (100, 6) :=
  aim_point_of_none _ _ intercept_time_ex1

/-- Witness for C3 at the concrete input: the leading coefficient is `1`,
the discriminant is negative, and the aim point falls back to the target's
current position. -/
theorem C3_smallest_positive_root_witness :
    (1e-9 : ℝ) ≤ |coefA ⟨0, 0, 0, 0⟩ ⟨100, 6, 1, 0⟩| ∧
      aim_point ⟨0, 0, 0, 0⟩ ⟨100, 6, 1, 0⟩ = (100, 6) := by
  have hA : (1e-9 : ℝ) ≤ |coefA ⟨0, 0, 0, 0⟩ ⟨100, 6, 1, 0⟩| := by
    rw [coefA_ex1]
    norm_num
  exact ⟨hA,
    ((C3_smallest_positive_root ⟨0, 0, 0, 0⟩ ⟨100, 6, 1, 0⟩ hA).2 intercept_time_ex1).2⟩

/-! ### Claim C9: interceptor at rest -/

/-- Counterexample to claim C9 as stated: with the interceptor at rest and
a tiny but non-zero target velocity (`v·v = 1e-10 < 1e-9`), the code takes
the degenerate linear branch, not the quadratic one; the target's velocity
is not anti-parallel to the relative position, yet the guidance does not
fall back to the target's current position: the chosen aim point is
`(0, 1)` while the target is at `(1, 1)`. -/
theorem C9_counterexample :
    ((⟨1, 1, -1e-5, 0⟩ : Target).vx ≠ 0 ∨ (⟨1, 1, -1e-5, 0⟩ : Target).vy ≠ 0) ∧
      ¬((1 - (0 : ℝ)) * 0 - (1 - (0 : ℝ)) * (-1e-5) = 0 ∧
        (1 - (0 : ℝ)) * (-1e-5) + (1 - (0 : ℝ)) * 0 < 0) ∧
      intercept_time ⟨0, 0, 0, 0⟩ ⟨1, 1, -1e-5, 0⟩ = some 100000 ∧
      aim_point ⟨0, 0, 0, 0⟩ ⟨1, 1, -1e-5, 0⟩ = (0, 1) ∧
      ((0 : ℝ), (1 : ℝ)) ≠ ((⟨1, 1, -1e-5, 0⟩ : Target).x, (⟨1, 1, -1e-5, 0⟩ : Target).y) := by
  have hA : coefA ⟨0, 0, 0, 0⟩ ⟨1, 1, -1e-5, 0⟩ = 1e-10 := by
    unfold coefA
    norm_num [Real.sqrt_zero]
  have hB : coefB ⟨0, 0, 0, 0⟩ ⟨1, 1, -1e-5, 0⟩ = -2e-5 := by
    unfold coefB
    norm_num
  have hC : coefC ⟨0, 0, 0, 0⟩ ⟨1, 1, -1e-5, 0⟩ = 2 := by
    unfold coefC
    norm_num
  have hit : intercept_time ⟨0, 0, 0, 0⟩ ⟨1, 1, -1e-5, 0⟩ = some 100000 := by
    unfold intercept_time
    rw [if_pos, if_pos, if_pos]
    · rw [hB, hC]
      norm_num
    · rw [hB, hC]
      norm_num
    · rw [hB, abs_of_nonpos (by norm_num)]
      norm_num
    · rw [hA, abs_of_nonneg (by norm_num)]
      norm_num
  refine ⟨Or.inl (by norm_num), by norm_num, hit, ?_, by norm_num [Prod.ext_iff]⟩
  unfold aim_point
  rw [hit]
  norm_num

/-- Claim C9 amended: additionally requiring the non-degenerate leading
coefficient `v·v ≥ 1e-9` (otherwise the code takes its linear branch).
Then with the interceptor's velocity zero the leading coefficient is `v·v`,
the discriminant is `-4 (r×v)² ≤ 0` by Cauchy–Schwarz, and the guidance
falls back to aiming at the target's current position unless the target's
velocity is exactly anti-parallel to the relative position (`r×v = 0` and
`r·v < 0`), in which case a strictly positive intercept time is chosen. -/
theorem C9_rest_interceptor_fallback (frm tgt : Target)
    (h0x : frm.vx = 0) (h0y : frm.vy = 0)
    (hv : 1e-9 ≤ tgt.vx * tgt.vx + tgt.vy * tgt.vy) :
    (¬((tgt.x - frm.x) * tgt.vy - (tgt.y - frm.y) * tgt.vx = 0 ∧
        (tgt.x - frm.x) * tgt.vx + (tgt.y - frm.y) * tgt.vy < 0) →
      intercept_time frm tgt = none ∧ aim_point frm tgt = (tgt.x, tgt.y)) ∧
    (((tgt.x - frm.x) * tgt.vy - (tgt.y - frm.y) * tgt.vx = 0 ∧
        (tgt.x - frm.x) * tgt.vx + (tgt.y - frm.y) * tgt.vy < 0) →
      ∃ t, 0 < t ∧ intercept_time frm tgt = some t) := by
  have hA : coefA frm tgt = tgt.vx * tgt.vx + tgt.vy * tgt.vy := by
    unfold coefA
    rw [h0x, h0y]
    norm_num [Real.sqrt_zero]
  have hApos : 0 < coefA frm tgt := by
    rw [hA]
    linarith [hv]
  have hnotlt : ¬ |coefA frm tgt| < 1e-9 := by
    rw [abs_of_pos hApos, hA]
    exact not_lt.mpr hv
  have hdisc : quadDisc frm tgt =
      -(4 * ((tgt.x - frm.x) * tgt.vy - (tgt.y - frm.y) * tgt.vx) ^ 2) := by
    unfold quadDisc coefB coefC
    rw [hA]
    ring
  have hB : coefB frm tgt =
      2 * ((tgt.x - frm.x) * tgt.vx + (tgt.y - frm.y) * tgt.vy) := rfl
  constructor
  · intro hna
    by_cases hcross : (tgt.x - frm.x) * tgt.vy - (tgt.y - frm.y) * tgt.vx = 0
    · have hdot : 0 ≤ (tgt.x - frm.x) * tgt.vx + (tgt.y - frm.y) * tgt.vy := by
        by_contra hlt
        exact hna ⟨hcross, not_le.mp hlt⟩
      have hd0 : quadDisc frm tgt = 0 := by
        rw [hdisc, hcross]
        ring
      have hs0 : Real.sqrt (quadDisc frm tgt) = 0 := by
        rw [hd0, Real.sqrt_zero]
      have hroot1 : root1 frm tgt ≤ 0 := by
        unfold root1
        rw [hs0, hB]
        apply div_nonpos_of_nonpos_of_nonneg
        · linarith
        · linarith
      have hroot2 : root2 frm tgt ≤ 0 := by
        unfold root2
        rw [hs0, hB]
        apply div_nonpos_of_nonpos_of_nonneg
        · linarith
        · linarith
      have heq : intercept_time frm tgt = none := by
        unfold intercept_time
        rw [if_neg hnotlt, if_pos (by rw [hd0] : 0 ≤ quadDisc frm tgt),
          if_neg (not_lt.mpr hroot1), if_neg (not_lt.mpr hroot2)]
      exact ⟨heq, aim_point_of_none frm tgt heq⟩
    · have hd0 : quadDisc frm tgt < 0 := by
        rw [hdisc]
        have hpos : 0 < ((tgt.x - frm.x) * tgt.vy - (tgt.y - frm.y) * tgt.vx) ^ 2 :=
          (sq_nonneg _).lt_of_ne (Ne.symm (pow_ne_zero 2 hcross))
        linarith
      have heq : intercept_time frm tgt = none := by
        unfold intercept_time
        rw [if_neg hnotlt, if_neg (not_le.mpr hd0)]
      exact ⟨heq, aim_point_of_none frm tgt heq⟩
  · rintro ⟨hcross, hdot⟩
    have hd0 : quadDisc frm tgt = 0 := by
      rw [hdisc, hcross]
      ring
    have hs0 : Real.sqrt (quadDisc frm tgt) = 0 := by
      rw [hd0, Real.sqrt_zero]
    have hroot1 : 0 < root1 frm tgt := by
      unfold root1
      rw [hs0, hB]
      apply div_pos
      · linarith
      · linarith
    have hroot2 : 0 < root2 frm tgt := by
      unfold root2
      rw [hs0, hB]
      apply div_pos
      · linarith
      · linarith
    refine ⟨min (root1 frm tgt) (root2 frm tgt), lt_min hroot1 hroot2, ?_⟩
    unfold intercept_time
    rw [if_neg hnotlt, if_pos (by rw [hd0] : 0 ≤ quadDisc frm tgt),
      if_pos hroot1, if_pos hroot2]

/-- Witness for the amended C9: interceptor at rest at the origin, target
at `(10, 0)` moving away with velocity `(1, 0)` (not anti-parallel): the
guidance falls back to the target's current position. -/
theorem C9_rest_interceptor_fallback_witness :
    (1e-9 : ℝ) ≤ 1 * 1 + 0 * 0 ∧
      aim_point ⟨0, 0, 0, 0⟩ ⟨10, 0, 1, 0⟩ = (10, 0) := by
  have h := C9_rest_interceptor_fallback ⟨0, 0, 0, 0⟩ ⟨10, 0, 1, 0⟩ rfl rfl
    (by norm_num)
  exact ⟨by norm_num, (h.1 (by norm_num)).2⟩

/-! ### Numeric bounds for the approach-angle analysis -/

lemma sqrt10036_lt : Real.sqrt 10036 < 100.18 :=
  (Real.sqrt_lt' (by norm_num)).mpr (by norm_num)

lemma sqrt10036_gt : (100.17 : ℝ) < Real.sqrt 10036 :=
  (Real.lt_sqrt (by norm_num)).mpr (by norm_num)

lemma sqrt10036_pos : 0 < Real.sqrt 10036 :=
  lt_trans (by norm_num) sqrt10036_gt

lemma rotA_pos : 0 < 5.5 * (Real.pi / 180) := by positivity

lemma rotA_lb : (0.09599 : ℝ) < 5.5 * (Real.pi / 180) := by
  have h := Real.pi_gt_d6
  linarith

lemma rotA_ub : 5.5 * (Real.pi / 180) < 0.096 := by
  have h := Real.pi_lt_d6
  linarith

lemma rotA_le_one : 5.5 * (Real.pi / 180) ≤ 1 := by
  linarith [rotA_ub]

/-- Lower bound on the cosine of the rotation buffer angle (5.5°). -/
lemma cos_rotA_lb : (0.99539 : ℝ) ≤ Real.cos (5.5 * (Real.pi / 180)) := by
  have h := Real.one_sub_sq_div_two_le_cos (x := 5.5 * (Real.pi / 180))
  have h2 : (5.5 * (Real.pi / 180)) ^ 2 < 0.096 ^ 2 := by
    nlinarith [rotA_pos, rotA_ub]
  linarith

/-- Lower bound on the sine of the rotation buffer angle (5.5°). -/
lemma sin_rotA_lb : (0.09576 : ℝ) ≤ Real.sin (5.5 * (Real.pi / 180)) := by
  have h := Real.sin_gt_sub_cube rotA_pos rotA_le_one
  have h3 : (5.5 * (Real.pi / 180)) ^ 3 ≤ (0.096 : ℝ) ^ 3 := by
    gcongr
    exact rotA_ub.le
  linarith [rotA_lb]

/-- Upper bound on `cos 5°` via the half-angle identity and the cubic
lower bound on `sin`. -/
lemma cos_five_deg_ub : Real.cos (Real.pi / 36) < 0.9962 := by
  have hpiL := Real.pi_gt_d6
  have hpiU := Real.pi_lt_d6
  have hu0 : 0 < Real.pi / 72 := by positivity
  have hu1 : Real.pi / 72 ≤ 1 := by linarith
  have hul : (0.0436332 : ℝ) < Real.pi / 72 := by linarith
  have huu : Real.pi / 72 < 0.0436333 := by linarith
  have hsin := Real.sin_gt_sub_cube hu0 hu1
  have hcube : (Real.pi / 72) ^ 3 ≤ (0.0436333 : ℝ) ^ 3 := by
    gcongr
  have hsinlb : (0.0436124 : ℝ) < Real.sin (Real.pi / 72) := by
    nlinarith
  have hsq : (0.0436124 : ℝ) ^ 2 < Real.sin (Real.pi / 72) ^ 2 := by
    nlinarith
  have hid := Real.sin_sq_eq_half_sub (Real.pi / 72)
  have h2u : 2 * (Real.pi / 72) = Real.pi / 36 := by ring
  rw [h2u] at hid
  nlinarith

/-- The heading's first coordinate dominates `cos 5°` at the concrete
counterexample geometry. -/
lemma cos_five_lt_dx : Real.cos (Real.pi / 36) < 100 / Real.sqrt 10036 := by
  have h1 := cos_five_deg_ub
  have h2 : (100 : ℝ) / 100.18 < 100 / Real.sqrt 10036 :=
    (div_lt_div_iff_of_pos_left (by norm_num) (by norm_num) sqrt10036_pos).mpr sqrt10036_lt
  have h3 : (0.9982 : ℝ) < 100 / 100.18 := by norm_num
  linarith

/-! ### From `arccos` to the degree comparisons of the source -/

/-- `acos(x).to_degrees ≤ 5` whenever `cos 5° ≤ x`. -/
lemma arccos_deg_le_5 {x : ℝ} (hx : Real.cos (Real.pi / 36) ≤ x) :
    Real.arccos x * (180 / Real.pi) ≤ 5 := by
  have h1 : Real.arccos x ≤ Real.arccos (Real.cos (Real.pi / 36)) := by
    rw [Real.arccos_eq_pi_div_two_sub_arcsin, Real.arccos_eq_pi_div_two_sub_arcsin]
    have := Real.monotone_arcsin hx
    linarith
  have h2 : Real.arccos (Real.cos (Real.pi / 36)) = Real.pi / 36 :=
    Real.arccos_cos (by positivity) (by linarith [Real.pi_pos])
  have hpos : (0 : ℝ) < 180 / Real.pi := by positivity
  have h3 : Real.arccos x * (180 / Real.pi) ≤ (Real.pi / 36) * (180 / Real.pi) := by
    apply mul_le_mul_of_nonneg_right _ hpos.le
    rw [← h2]
    exact h1
  have h4 : (Real.pi / 36) * (180 / Real.pi) = 5 := by
    field_simp
    ring
  linarith

/-- `acos(x).to_degrees < 5` whenever `cos 5° < x ≤ 1`. -/
lemma arccos_deg_lt_5 {x : ℝ} (hx1 : -1 ≤ x) (hx2 : x ≤ 1)
    (hx : Real.cos (Real.pi / 36) < x) :
    Real.arccos x * (180 / Real.pi) < 5 := by
  have harc : Real.arccos x < Real.pi / 36 := by
    by_contra hle
    push_neg at hle
    have hc := Real.cos_le_cos_of_nonneg_of_le_pi (by positivity)
      (Real.arccos_le_pi x) hle
    rw [Real.cos_arccos hx1 hx2] at hc
    linarith
  have hpos : (0 : ℝ) < 180 / Real.pi := by positivity
  have h3 := mul_lt_mul_of_pos_right harc hpos
  have h4 : (Real.pi / 36) * (180 / Real.pi) = 5 := by
    field_simp
    ring
  linarith

/-- Strict antitonicity of the degree-valued angle in the cosine. -/
lemma arccos_deg_strict_anti {x y : ℝ} (hx1 : -1 ≤ x) (hy2 : y ≤ 1) (hxy : x < y) :
    Real.arccos y * (180 / Real.pi) < Real.arccos x * (180 / Real.pi) := by
  have h1 : Real.arccos y < Real.arccos x :=
    Real.strictAntiOn_arccos (Set.mem_Icc.mpr ⟨hx1, le_trans hxy.le hy2⟩)
      (Set.mem_Icc.mpr ⟨le_trans hx1 hxy.le, hy2⟩) hxy
  exact mul_lt_mul_of_pos_right h1 (by positivity)

/-- The source's angle function against the unit vector `(1, 0)` of the
target velocity, evaluated on a unit heading. -/
lemma angle_between_unit_x {ux uy : ℝ} (h : ux * ux + uy * uy = 1) :
    calculate_angle_between_vectors ux uy 1 0 = Real.arccos ux * (180 / Real.pi) := by
  unfold calculate_angle_between_vectors
  rw [h]
  norm_num [Real.sqrt_one]

/-! ### Evaluation of the steering pipeline at the failing input -/

lemma aim_distance_ex1 : aim_distance ⟨0, 0, 0, 0⟩ ⟨100, 6, 1, 0⟩ = Real.sqrt 10036 := by
  unfold aim_distance
  rw [aim_point_ex1]
  norm_num

lemma desired_heading_ex1 :
    desired_heading ⟨0, 0, 0, 0⟩ ⟨100, 6, 1, 0⟩ =
      (100 / Real.sqrt 10036, 6 / Real.sqrt 10036) := by
  unfold desired_heading
  rw [aim_distance_ex1, aim_point_ex1, if_pos (by linarith [sqrt10036_gt])]
  norm_num

/-- The pre-enforcement heading at the failing input is a unit vector. -/
lemma unit_dED :
    (100 / Real.sqrt 10036) * (100 / Real.sqrt 10036) +
      (6 / Real.sqrt 10036) * (6 / Real.sqrt 10036) = 1 := by
  have hD2 : Real.sqrt 10036 * Real.sqrt 10036 = 10036 :=
    Real.mul_self_sqrt (by norm_num)
  have hne : Real.sqrt 10036 ≠ 0 := ne_of_gt sqrt10036_pos
  field_simp
  linarith [hD2]

/-- The approach-angle test fires at the failing input: the heading is
within 5 degrees of the target velocity `(1, 0)`. -/
lemma fire_ex1 :
    calculate_angle_between_vectors (100 / Real.sqrt 10036) (6 / Real.sqrt 10036)
      1 0 ≤ 5 := by
  rw [angle_between_unit_x unit_dED]
  exact arccos_deg_le_5 cos_five_lt_dx.le

/-- The enforcement block, evaluated on a unit heading that is clockwise of
the target velocity `(1, 0)` (negative cross product): the heading is
rotated clockwise by 5.5°, and the re-normalization divides by `1`. -/
lemma enforce_cw_eval (d : ℝ × ℝ)
    (hang : calculate_angle_between_vectors d.1 d.2 1 0 ≤ 5)
    (hcross : d.1 * 0 - d.2 * 1 < 0)
    (hunit : d.1 * d.1 + d.2 * d.2 = 1) :
    enforce_approach_angle d 1 0 =
      (d.1 * Real.cos (5.5 * (Real.pi / 180)) + d.2 * Real.sin (5.5 * (Real.pi / 180)),
       d.2 * Real.cos (5.5 * (Real.pi / 180)) - d.1 * Real.sin (5.5 * (Real.pi / 180))) := by
  have hnm : ∀ rot : ℝ, Real.sqrt
      ((d.1 * Real.cos rot - d.2 * Real.sin rot) * (d.1 * Real.cos rot - d.2 * Real.sin rot) +
        (d.1 * Real.sin rot + d.2 * Real.cos rot) * (d.1 * Real.sin rot + d.2 * Real.cos rot))
      = 1 := by
    intro rot
    rw [rotate_norm_sq, hunit, Real.sqrt_one]
  unfold enforce_approach_angle
  rw [if_pos hang]
  dsimp only
  rw [if_neg (not_le.mpr hcross), hnm,
    if_pos (by norm_num : (1e-9 : ℝ) < 1), div_one, div_one, neg_one_mul,
    Real.cos_neg, Real.sin_neg]
  simp only [Prod.mk.injEq]
  constructor <;> ring

/-- The steering direction returned at the failing input: the desired
heading rotated clockwise by 5.5°. -/
lemma steer_ex1 :
    calculate_steering_direction ⟨0, 0, 0, 0⟩ ⟨100, 6, 1, 0⟩ =
      ((100 / Real.sqrt 10036) * Real.cos (5.5 * (Real.pi / 180)) +
         (6 / Real.sqrt 10036) * Real.sin (5.5 * (Real.pi / 180)),
       (6 / Real.sqrt 10036) * Real.cos (5.5 * (Real.pi / 180)) -
         (100 / Real.sqrt 10036) * Real.sin (5.5 * (Real.pi / 180))) := by
  unfold calculate_steering_direction
  rw [aim_distance_ex1, if_pos (by linarith [sqrt10036_gt]), desired_heading_ex1]
  have hcross : (100 / Real.sqrt 10036) * 0 - (6 / Real.sqrt 10036) * 1 < 0 := by
    have : 0 < 6 / Real.sqrt 10036 := by positivity
    linarith
  exact enforce_cw_eval (100 / Real.sqrt 10036, 6 / Real.sqrt 10036) fire_ex1 hcross unit_dED

/-- The post-enforcement heading at the failing input is still a unit
vector. -/
lemma post_unit_ex1 :
    ((100 / Real.sqrt 10036) * Real.cos (5.5 * (Real.pi / 180)) +
        (6 / Real.sqrt 10036) * Real.sin (5.5 * (Real.pi / 180))) *
      ((100 / Real.sqrt 10036) * Real.cos (5.5 * (Real.pi / 180)) +
        (6 / Real.sqrt 10036) * Real.sin (5.5 * (Real.pi / 180))) +
    ((6 / Real.sqrt 10036) * Real.cos (5.5 * (Real.pi / 180)) -
        (100 / Real.sqrt 10036) * Real.sin (5.5 * (Real.pi / 180))) *
      ((6 / Real.sqrt 10036) * Real.cos (5.5 * (Real.pi / 180)) -
        (100 / Real.sqrt 10036) * Real.sin (5.5 * (Real.pi / 180))) = 1 := by
  have hcs : Real.cos (5.5 * (Real.pi / 180)) * Real.cos (5.5 * (Real.pi / 180)) +
      Real.sin (5.5 * (Real.pi / 180)) * Real.sin (5.5 * (Real.pi / 180)) = 1 := by
    nlinarith [Real.sin_sq_add_cos_sq (5.5 * (Real.pi / 180))]
  nlinarith [unit_dED, hcs]

/-- The rotation actually moved the heading closer to parallel: the first
coordinate strictly increased. -/
lemma dx_lt_post :
    100 / Real.sqrt 10036 <
      (100 / Real.sqrt 10036) * Real.cos (5.5 * (Real.pi / 180)) +
        (6 / Real.sqrt 10036) * Real.sin (5.5 * (Real.pi / 180)) := by
  have hux : (100 / Real.sqrt 10036) * Real.cos (5.5 * (Real.pi / 180)) +
      (6 / Real.sqrt 10036) * Real.sin (5.5 * (Real.pi / 180)) =
      (100 * Real.cos (5.5 * (Real.pi / 180)) +
        6 * Real.sin (5.5 * (Real.pi / 180))) / Real.sqrt 10036 := by
    ring
  rw [hux]
  rw [div_lt_div_iff_of_pos_right sqrt10036_pos]
  nlinarith [cos_rotA_lb, sin_rotA_lb]

lemma post_le_one :
    (100 / Real.sqrt 10036) * Real.cos (5.5 * (Real.pi / 180)) +
        (6 / Real.sqrt 10036) * Real.sin (5.5 * (Real.pi / 180)) ≤ 1 := by
  have h := post_unit_ex1
  have hsq : ((100 / Real.sqrt 10036) * Real.cos (5.5 * (Real.pi / 180)) +
      (6 / Real.sqrt 10036) * Real.sin (5.5 * (Real.pi / 180))) *
      ((100 / Real.sqrt 10036) * Real.cos (5.5 * (Real.pi / 180)) +
      (6 / Real.sqrt 10036) * Real.sin (5.5 * (Real.pi / 180))) ≤ 1 := by
    nlinarith [mul_self_nonneg ((6 / Real.sqrt 10036) * Real.cos (5.5 * (Real.pi / 180)) -
      (100 / Real.sqrt 10036) * Real.sin (5.5 * (Real.pi / 180)))]
  exact (abs_le.mp (abs_le_one_iff_mul_self_le_one.mpr hsq)).2

/-! ### Claims C1 and C2: the enforcement rotates the wrong way -/

/-- Claim C1 is violated by the code: at the state interceptor
`(0, 0)` with velocity `(0, 0)` and target `(100, 6)` with velocity
`(1, 0)` (non-zero), the heading returned by
`calculate_steering_direction` makes an angle strictly below 5 degrees
with the target's velocity (about 2.07°), although the enforcement step
ran: the rotation overshoots past parallel instead of rotating away. -/
theorem C1_failing_input_angle_below_5 :
    ((⟨100, 6, 1, 0⟩ : Target).vx ≠ 0 ∨ (⟨100, 6, 1, 0⟩ : Target).vy ≠ 0) ∧
      calculate_angle_between_vectors
        (calculate_steering_direction ⟨0, 0, 0, 0⟩ ⟨100, 6, 1, 0⟩).1
        (calculate_steering_direction ⟨0, 0, 0, 0⟩ ⟨100, 6, 1, 0⟩).2 1 0 < 5 := by
  refine ⟨Or.inl one_ne_zero, ?_⟩
  rw [steer_ex1]
  dsimp only
  rw [angle_between_unit_x post_unit_ex1]
  have hneg1 : (-1 : ℝ) ≤ (100 / Real.sqrt 10036) * Real.cos (5.5 * (Real.pi / 180)) +
      (6 / Real.sqrt 10036) * Real.sin (5.5 * (Real.pi / 180)) := by
    have h1 : (0 : ℝ) < 100 / Real.sqrt 10036 := by positivity
    linarith [cos_five_lt_dx, dx_lt_post, Real.cos_le_one (Real.pi / 36),
      Real.neg_one_le_cos (Real.pi / 36)]
  exact arccos_deg_lt_5 hneg1 post_le_one
    (lt_trans cos_five_lt_dx dx_lt_post)

/-- Claim C2 is violated by the code: at the same state the enforcement
fires (the pre-enforcement heading is within 5 degrees of the target
velocity), and the applied 5.5° rotation strictly DECREASES the angle
between the heading and the target's velocity (from about 3.43° to about
2.07°) instead of increasing it: the cross-product sign rotates the
heading toward and past the target velocity. -/
theorem C2_enforcement_decreases_angle :
    calculate_angle_between_vectors
        (desired_heading ⟨0, 0, 0, 0⟩ ⟨100, 6, 1, 0⟩).1
        (desired_heading ⟨0, 0, 0, 0⟩ ⟨100, 6, 1, 0⟩).2 1 0 ≤ 5 ∧
      calculate_angle_between_vectors
          (calculate_steering_direction ⟨0, 0, 0, 0⟩ ⟨100, 6, 1, 0⟩).1
          (calculate_steering_direction ⟨0, 0, 0, 0⟩ ⟨100, 6, 1, 0⟩).2 1 0 <
        calculate_angle_between_vectors
          (desired_heading ⟨0, 0, 0, 0⟩ ⟨100, 6, 1, 0⟩).1
          (desired_heading ⟨0, 0, 0, 0⟩ ⟨100, 6, 1, 0⟩).2 1 0 := by
  rw [desired_heading_ex1, steer_ex1]
  dsimp only
  constructor
  · exact fire_ex1
  · rw [angle_between_unit_x unit_dED, angle_between_unit_x post_unit_ex1]
    have hx1 : (-1 : ℝ) ≤ 100 / Real.sqrt 10036 := by
      have h0 : (0 : ℝ) ≤ 100 / Real.sqrt 10036 := by positivity
      linarith
    exact arccos_deg_strict_anti hx1 post_le_one dx_lt_post

/-! ### Claim C5: stationary target gives pure pursuit -/

/-- Claim C5: with a stationary target (velocity exactly `(0, 0)`), an
interceptor of strictly positive speed at a distinct position, the chosen
aim point is exactly the target's current position. -/
theorem C5_stationary_target_pure_pursuit (frm tgt : Target)
    (hvx : tgt.vx = 0) (hvy : tgt.vy = 0) (hs : 0 < frm.speed)
    (hne : (frm.x, frm.y) ≠ (tgt.x, tgt.y)) :
    aim_point frm tgt = (tgt.x, tgt.y) := by
  unfold aim_point
  cases h : intercept_time frm tgt with
  | none => rfl
  | some t => rw [hvx, hvy]; ring_nf

/-- Witness for C5 at a concrete input: interceptor at the origin with
velocity `(3, 4)` (speed `5`), target stationary at `(10, 0)`. -/
theorem C5_stationary_target_pure_pursuit_witness :
    ((0 : ℝ), (0 : ℝ)) ≠ ((10 : ℝ), (0 : ℝ)) ∧
      0 < Target.speed ⟨0, 0, 3, 4⟩ ∧
      aim_point ⟨0, 0, 3, 4⟩ ⟨10, 0, 0, 0⟩ = (10, 0) := by
  have hs : 0 < Target.speed ⟨0, 0, 3, 4⟩ := by
    unfold Target.speed
    exact Real.sqrt_pos.mpr (by norm_num)
  exact ⟨by norm_num [Prod.ext_iff], hs,
    C5_stationary_target_pure_pursuit _ _ rfl rfl hs (by norm_num [Prod.ext_iff])⟩

/-! ### Claim C6: evasion preserves the target's speed -/

/-- One tick step preserves the target's speed. -/
lemma simStep_target_speed (p : Params) (ρ : ℝ) (st : SimState) :
    (simStep p ρ st).target.speed = st.target.speed := by
  unfold simStep
  split_ifs with h1 h2
  · rfl
  · rfl
  · simp only [Target.update, Target.speed, evade]
    congr 1
    exact rotate_norm_sq _ _ _

/-- Claim C6: the evasion update rotates the target velocity, so the
target's speed (velocity magnitude) is exactly preserved each tick, and by
induction over the tick loop the target's speed equals its initial speed at
every tick. -/
theorem C6_evasion_preserves_speed (p : Params) (ρ : ℝ) (t : Target)
    (draws : List ℝ) (st : SimState) :
    (evade p ρ t).speed = t.speed ∧
      (simRun p draws st).target.speed = st.target.speed := by
  constructor
  · simp only [Target.speed, evade]
    congr 1
    exact rotate_norm_sq _ _ _
  · induction draws generalizing st with
    | nil => rfl
    | cons ρ0 rest ih =>
      show (simRun p rest (simStep p ρ0 st)).target.speed = st.target.speed
      rw [ih (simStep p ρ0 st), simStep_target_speed]

/-! ### Claim C8: the returned heading is unit or zero -/

/-- Claim C8: `calculate_steering_direction` returns a vector of magnitude
exactly `1` or the zero vector, and it returns the zero vector exactly when
the interceptor's distance to the chosen aim point is at most `1e-9`. -/
theorem C8_steering_unit_or_zero (frm tgt : Target) :
    (Real.sqrt ((calculate_steering_direction frm tgt).1 *
          (calculate_steering_direction frm tgt).1 +
        (calculate_steering_direction frm tgt).2 *
          (calculate_steering_direction frm tgt).2) = 1 ∨
      calculate_steering_direction frm tgt = (0, 0)) ∧
    (calculate_steering_direction frm tgt = (0, 0) ↔ aim_distance frm tgt ≤ 1e-9) := by
  by_cases h : 1e-9 < aim_distance frm tgt
  · have hdistpos : 0 < aim_distance frm tgt := lt_trans (by norm_num) h
    have hsq : aim_distance frm tgt * aim_distance frm tgt =
        ((aim_point frm tgt).1 - frm.x) * ((aim_point frm tgt).1 - frm.x) +
          ((aim_point frm tgt).2 - frm.y) * ((aim_point frm tgt).2 - frm.y) := by
      unfold aim_distance
      exact Real.mul_self_sqrt (add_nonneg (mul_self_nonneg _) (mul_self_nonneg _))
    have hunit : (desired_heading frm tgt).1 * (desired_heading frm tgt).1 +
        (desired_heading frm tgt).2 * (desired_heading frm tgt).2 = 1 := by
      unfold desired_heading
      rw [if_pos h]
      field_simp
      linarith [hsq]
    have henf := enforce_approach_angle_unit tgt.vx tgt.vy hunit
    have hres : calculate_steering_direction frm tgt =
        enforce_approach_angle (desired_heading frm tgt) tgt.vx tgt.vy := by
      unfold calculate_steering_direction
      rw [if_pos h]
    have hno : calculate_steering_direction frm tgt ≠ (0, 0) := by
      intro hz
      rw [hres] at hz
      rw [hz] at henf
      norm_num at henf
    refine ⟨Or.inl ?_, ?_⟩
    · rw [hres, henf, Real.sqrt_one]
    · constructor
      · intro hz; exact absurd hz hno
      · intro hle; exact absurd h (not_lt.mpr hle)
  · have hres : calculate_steering_direction frm tgt = (0, 0) := by
      unfold calculate_steering_direction
      rw [if_neg h]
    exact ⟨Or.inr hres, by simp [hres, not_lt.mp h]⟩

end
